import Mathlib

/-!
# terraform-provider-git: the git file resource and its repository client

A shallow embedding of `internal/git/client.go` and
`internal/resources/resource_git_file.go`.

Go `string` and `[]byte` values are both represented by Lean `String`; the
conversions `[]byte(s)` and `string(b)` are the identity on the underlying
bytes and are therefore not written out. The separator `"/"` is one byte that
occurs in no multi-byte UTF-8 sequence, so splitting characters at `'/'` and
splitting bytes at `"/"` give the same segments.

The retry of `Client.Write` (`goto start`) is the recursive call of
`Client.WriteFrom`; the counter `tries` is its argument.
-/

namespace GitProvider

/-! ## Go standard library: `strings`, `fmt` -/

/-- Segments of a character list cut at every occurrence of `sep`
(the result always has one segment more than there are separators). -/
def splitChars (sep : Char) : List Char → List (List Char)
  | [] => [[]]
  | c :: cs =>
    if c = sep then [] :: splitChars sep cs
    else
      match splitChars sep cs with
      | [] => [[c]]
      | seg :: rest => (c :: seg) :: rest

/-- Go `strings.Split(s, sep)` for a one-character separator, which is the
only way the provider calls it (`strings.Split(path, "/")`). -/
def Split (s : String) (sep : Char) : List String :=
  (splitChars sep s.data).map String.mk

/-- Go `strings.Join(elems, sep)`. -/
def Join : List String → String → String
  | [], _ => ""
  | [a], _ => a
  | a :: b :: rest, sep => a ++ sep ++ Join (b :: rest) sep

/-- Go `fmt.Sprintf("%s/%s", a, b)`. -/
def sprintfSlash (a b : String) : String := a ++ "/" ++ b

/-- Go `strings.Contains` on character lists: `sub` occurs somewhere in the
list. -/
def containsChars (sub : List Char) : List Char → Bool
  | [] => sub.isEmpty
  | c :: cs => sub.isPrefixOf (c :: cs) || containsChars sub cs

/-- Go `strings.Contains(s, substr)`. -/
def Contains (s substr : String) : Bool := containsChars substr.data s.data

/-! ## Go errors -/

/-- Error values reaching the client. `ErrNotExist` is the sentinel
`os.ErrNotExist`, `ErrNonFastForwardUpdate` the sentinel
`git.ErrNonFastForwardUpdate`, `other` any other error value of a library
(identified by its message), `wrap` the result of `errors.Wrap`. -/
inductive GoError where
  | ErrNotExist
  | ErrNonFastForwardUpdate
  | other (msg : String)
  | wrap (cause : GoError) (msg : String)
  deriving DecidableEq, Repr

/-- Go `err.Error()`; `errors.Wrap(cause, msg).Error()` is
`msg + ": " + cause.Error()`. -/
def GoError.Error : GoError → String
  | .ErrNotExist => "file does not exist"
  | .ErrNonFastForwardUpdate => "non-fast-forward update"
  | .other msg => msg
  | .wrap cause msg => msg ++ ": " ++ cause.Error

/-! ## The git library and the remote, as a parameter

The client is written against go-git (`git.CloneContext`, `Worktree`,
`Checkout`, the billy filesystem of the worktree, `Add`, `Commit`,
`PushContext`). None of that code belongs to the provider, so it is a
parameter: `σ` is the state of everything outside the process (remotes,
network, clock), `ρ` an in-memory repository with its worktree, `φ` an open
file. Operations on the in-memory clone are pure; clone and push act on `σ`.
-/

/-- Fields of `git.CloneOptions` that the client sets. -/
structure CloneOptions where
  URL : String
  Username : String
  Password : String
  SingleBranch : Bool
  ReferenceName : String
  deriving DecidableEq, Repr

/-- Go `object.Signature`. -/
structure Signature where
  Name : String
  Email : String
  When : Nat
  deriving DecidableEq, Repr

/-- The operations of go-git, go-billy and `time` used by the client. -/
structure Git (σ ρ φ : Type) where
  CloneContext : CloneOptions → σ → Except GoError ρ × σ
  Worktree : ρ → Option GoError
  Checkout : ρ → String → Except GoError ρ
  Stat : ρ → String → Option GoError
  OpenFile : ρ → String → Except GoError φ
  ReadAll : φ → Except GoError String
  Create : ρ → String → Except GoError (φ × ρ)
  FileWrite : ρ → φ → String → Except GoError ρ
  Add : ρ → String → Except GoError ρ
  Commit : ρ → String → Signature → Except GoError ρ
  PushContext : ρ → String → String → σ → Option GoError × σ
  Now : σ → Nat

/-- A recorded library call: a clone, a commit on the in-memory clone, or a
push. -/
inductive Event where
  | clone (url ref : String)
  | commit (msg : String) (author : Signature)
  | push
  deriving DecidableEq, Repr

/-- The outside state together with the record of the calls made so far. -/
structure World (σ : Type) where
  remote : σ
  trace : List Event

/-- The call `git.CloneContext`, recorded in the trace. -/
def doClone {σ ρ φ : Type} (g : Git σ ρ φ) (o : CloneOptions) (w : World σ) :
    Except GoError ρ × World σ :=
  let res := g.CloneContext o w.remote
  (res.1, { remote := res.2, trace := w.trace ++ [Event.clone o.URL o.ReferenceName] })

/-- The call `r.PushContext`, recorded in the trace. -/
def doPush {σ ρ φ : Type} (g : Git σ ρ φ) (r : ρ) (user pass : String) (w : World σ) :
    Option GoError × World σ :=
  let res := g.PushContext r user pass w.remote
  (res.1, { remote := res.2, trace := w.trace ++ [Event.push] })

/-- The call `t.Commit`, recorded in the trace (the clock is read for the author's
timestamp by the caller). -/
def doCommit {σ ρ φ : Type} (g : Git σ ρ φ) (r : ρ) (msg : String) (author : Signature)
    (w : World σ) : Except GoError ρ × World σ :=
  (g.Commit r msg author, { w with trace := w.trace ++ [Event.commit msg author] })

/-- Number of clones in a trace. -/
def clones (t : List Event) : Nat := t.countP fun e => e matches Event.clone _ _

/-- Number of pushes in a trace. -/
def pushes (t : List Event) : Nat := t.countP fun e => e matches Event.push

/-! ## `internal/git/client.go` -/

/-- Source: `Client`. The mutex has no effect on a single call and is not
represented. -/
structure Client where
  username : String
  password : String
  deriving DecidableEq, Repr

/-- Source: `NewClient`. -/
def NewClient (username password : String) : Client :=
  { username := username, password := password }

/-- Source: `ReadRequest`. -/
structure ReadRequest where
  Repository : String
  Branch : String
  Path : String
  FileName : String
  deriving DecidableEq, Repr

/-- Source: `ReadResponse`; `Contents` is `none` for a nil slice. -/
structure ReadResponse where
  Exists : Bool
  Contents : Option String
  deriving DecidableEq, Repr

/-- Source: `WriteRequest`. -/
structure WriteRequest extends ReadRequest where
  Content : String
  Name : String
  Email : String
  Postfix : String
  deriving DecidableEq, Repr

/-- The reference name both operations clone: `"refs/heads/" + Branch`. -/
def branchRef (branch : String) : String := "refs/heads/" ++ branch

/-- The clone options built by `Read` and by `Write`. -/
def Client.cloneOptions (c : Client) (request : ReadRequest) : CloneOptions :=
  { URL := request.Repository, Username := c.username, Password := c.password
    SingleBranch := true, ReferenceName := branchRef request.Branch }

/-- Source: `Client.Read`. -/
def Client.Read {σ ρ φ : Type} (c : Client) (g : Git σ ρ φ) (request : ReadRequest)
    (w : World σ) : Except GoError ReadResponse × World σ :=
  match doClone g (c.cloneOptions request) w with
  | (.error err, w1) => (.error (.wrap err "failed to clone repository"), w1)
  | (.ok r, w1) =>
    match g.Worktree r with
    | some err => (.error (.wrap err "failed to get worktree"), w1)
    | none =>
      let fileName := sprintfSlash request.Path request.FileName
      match g.Stat r fileName with
      | some err =>
        if err = GoError.ErrNotExist then
          (.ok { Exists := false, Contents := none }, w1)
        else
          (.error (.wrap err "cannot stat file"), w1)
      | none =>
        match g.OpenFile r fileName with
        | .error err => (.error (.wrap err "failed to open file"), w1)
        | .ok f =>
          match g.ReadAll f with
          | .error err => (.error (.wrap err "failed to read file"), w1)
          | .ok b => (.ok { Exists := true, Contents := some b }, w1)

/-- Source: the commit message built in `Client.Write`. -/
def commitMessage (request : WriteRequest) : String :=
  request.FileName ++ ": updated via terraform. " ++ request.Postfix

/-- Outcome of one pass through the body of `Client.Write` from the label
`start` to the call of `PushContext`: either a stage before the push returned
an error (already wrapped), or the push was made. -/
inductive Attempt (σ : Type) where
  | failed (err : GoError) (w : World σ)
  | pushed (err : Option GoError) (w : World σ)

/-- The world in which an attempt ends. -/
def Attempt.world {σ : Type} : Attempt σ → World σ
  | .failed _ w => w
  | .pushed _ w => w

/-- Source: `Client.Write`, from the label `start` up to and including
`r.PushContext`. -/
def Client.attempt {σ ρ φ : Type} (c : Client) (g : Git σ ρ φ) (request : WriteRequest)
    (w : World σ) : Attempt σ :=
  match doClone g (c.cloneOptions request.toReadRequest) w with
  | (.error err, w1) => .failed (.wrap err "failed to clone repository") w1
  | (.ok r, w1) =>
    match g.Worktree r with
    | some err => .failed (.wrap err "failed to get worktree") w1
    | none =>
      match g.Checkout r (branchRef request.Branch) with
      | .error err => .failed (.wrap err "failed to checkout") w1
      | .ok r1 =>
        let fileName := sprintfSlash request.Path request.FileName
        match g.Create r1 fileName with
        | .error err => .failed (.wrap err "failed to create file") w1
        | .ok (f, r2) =>
          match g.FileWrite r2 f request.Content with
          | .error err => .failed (.wrap err "failed to write content") w1
          | .ok r3 =>
            match g.Add r3 fileName with
            | .error err => .failed (.wrap err "failed to add file") w1
            | .ok r4 =>
              let author : Signature :=
                { Name := request.Name, Email := request.Email, When := g.Now w1.remote }
              match doCommit g r4 (commitMessage request) author w1 with
              | (.error err, w2) => .failed (.wrap err "failed to commit") w2
              | (.ok r5, w2) =>
                let res := doPush g r5 c.username c.password w2
                .pushed res.1 res.2

/-- The test on the push error in `Client.Write`:
`strings.Contains(err.Error(), git.ErrNonFastForwardUpdate.Error())`. -/
def isNonFastForward (err : GoError) : Bool :=
  Contains err.Error GoError.ErrNonFastForwardUpdate.Error

/-- Source: `Client.Write` from the label `start`, with the current value of
`tries`. The response pointer is `nil` on every path; the result is the
returned error. -/
def Client.WriteFrom {σ ρ φ : Type} (c : Client) (g : Git σ ρ φ) (request : WriteRequest)
    (tries : Nat) (w : World σ) : Option GoError × World σ :=
  match c.attempt g request w with
  | .failed err w1 => (some err, w1)
  | .pushed (some err) w2 =>
    if isNonFastForward err then
      if tries + 1 > 3 then
        (some (.wrap err "failed to push. retried 3 times"), w2)
      else
        Client.WriteFrom c g request (tries + 1) w2
    else
      (some (.wrap err "failed to push"), w2)
  | .pushed none w2 => (none, w2)
termination_by 4 - tries
decreasing_by omega

/-- Source: `Client.Write` (`tries := 0`, then the body at `start`). -/
def Client.Write {σ ρ φ : Type} (c : Client) (g : Git σ ρ φ) (request : WriteRequest)
    (w : World σ) : Option GoError × World σ :=
  c.WriteFrom g request 0 w

/-- The calls recorded after world `w` in the later world `w1`. -/
def newCalls {σ : Type} (w w1 : World σ) : List Event := w1.trace.drop w.trace.length

/-- The author signature `Write` passes to `Commit` in an attempt started in
world `w`: the request's name and email and the time read after the clone. -/
def Client.author {σ ρ φ : Type} (c : Client) (g : Git σ ρ φ) (request : WriteRequest)
    (w : World σ) : Signature :=
  { Name := request.Name, Email := request.Email
    When := g.Now (g.CloneContext (c.cloneOptions request.toReadRequest) w.remote).2 }

/-- The clone recorded by an operation on `request`. -/
def cloneEvent (request : ReadRequest) : Event :=
  Event.clone request.Repository (branchRef request.Branch)

/-! ## `schema.ResourceData` of the `git_file` resource -/

/-- The record of one managed file: the nine string attributes declared by
`ResourceGitFile` and the resource identifier set by `d.SetId`. -/
structure ResourceData where
  id : String
  repository : String
  folder : String
  file_name : String
  path : String
  content : String
  branch : String
  author : String
  email : String
  commitPostfix : String
  deriving DecidableEq, Repr

/-- Source: `resolvePath` in `resource_git_file.go`. -/
def resolvePath (d : ResourceData) : String × String :=
  let path := d.path
  if path = "" then
    (d.folder, d.file_name)
  else
    let frags := Split path '/'
    if frags.length > 1 then
      let folder := Join (frags.take (frags.length - 1)) "/"
      let file := frags.getD (frags.length - 1) ""
      (folder, file)
    else
      ("", frags.getD 0 "")

/-! ## Plugin SDK: diagnostics and `d.Set` -/

/-- Go `diag.Severity`. -/
inductive Severity where
  | Error
  | Warning
  deriving DecidableEq, Repr

/-- Go `diag.Diagnostic` (the fields `diag.FromErr` fills). -/
structure Diagnostic where
  Severity : Severity
  Summary : String
  deriving DecidableEq, Repr

/-- Go `diag.Diagnostics`; the empty list is the nil value. -/
abbrev Diagnostics := List Diagnostic

/-- Go `diag.FromErr` on a non-nil error. -/
def FromErr (err : GoError) : Diagnostics :=
  [{ Severity := Severity.Error, Summary := err.Error }]

/-- The SDK function `d.Set(key, value)`, a parameter: it returns the error of
the call and the record after it. -/
structure Sdk where
  Set : ResourceData → String → String → Option GoError × ResourceData

/-! ## `internal/resources/resource_git_file.go` -/

/-- The `git.ReadRequest` literal built in `resourceGitFileRead`. -/
def readRequestOf (d : ResourceData) (folder file : String) : ReadRequest :=
  { Repository := d.repository, Branch := d.branch, Path := folder, FileName := file }

/-- The `git.WriteRequest` literal built in `resourceGitFileCreate` and
`resourceGitFileUpdate`. -/
def writeRequestOf (d : ResourceData) (folder file : String) : WriteRequest :=
  { Repository := d.repository, Branch := d.branch, Path := folder, FileName := file
    Content := d.content, Name := d.author, Email := d.email, Postfix := d.commitPostfix }

/-- Source: `resourceGitFileRead`. The result is the returned diagnostics,
the record after the call and the world after the call. -/
def resourceGitFileRead {σ ρ φ : Type} (sdk : Sdk) (g : Git σ ρ φ) (m : Client)
    (d : ResourceData) (w : World σ) : Diagnostics × ResourceData × World σ :=
  let (folder, file) := resolvePath d
  match m.Read g (readRequestOf d folder file) w with
  | (.error err, w1) => (FromErr (.wrap err "failed to read file"), d, w1)
  | (.ok c, w1) =>
    if c.Exists then
      match sdk.Set d "content" (c.Contents.getD "") with
      | (some err, d1) => (FromErr (.wrap err "failed to set content"), d1, w1)
      | (none, d1) => ([], d1, w1)
    else
      ([], (sdk.Set d "content" "").2, w1)

/-- Source: `resourceGitFileCreate`. -/
def resourceGitFileCreate {σ ρ φ : Type} (sdk : Sdk) (g : Git σ ρ φ) (m : Client)
    (d : ResourceData) (w : World σ) : Diagnostics × ResourceData × World σ :=
  let diags : Diagnostics := []
  let (folder, file) := resolvePath d
  let fileName := sprintfSlash folder file
  let d0 := { d with id := fileName }
  match m.Write g (writeRequestOf d0 folder file) w with
  | (some err, w1) => (FromErr (.wrap err "failed to write file"), d0, w1)
  | (none, w1) =>
    let r := resourceGitFileRead sdk g m d0 w1
    (diags, r.2.1, r.2.2)

/-- Source: `resourceGitFileUpdate`. -/
def resourceGitFileUpdate {σ ρ φ : Type} (sdk : Sdk) (g : Git σ ρ φ) (m : Client)
    (d : ResourceData) (w : World σ) : Diagnostics × ResourceData × World σ :=
  let (folder, file) := resolvePath d
  match m.Write g (writeRequestOf d folder file) w with
  | (some err, w1) => (FromErr (.wrap err "failed to write file"), d, w1)
  | (none, w1) => resourceGitFileRead sdk g m d w1

/-- Source: `resourceGitFileDelete`. -/
def resourceGitFileDelete {σ ρ φ : Type} (_sdk : Sdk) (_g : Git σ ρ φ) (_m : Client)
    (d : ResourceData) (w : World σ) : Diagnostics × ResourceData × World σ :=
  let diags : Diagnostics := []
  (diags, d, w)

/-! ## An in-memory instance of the library

A small executable model of a remote and of go-git with an in-memory
filesystem, used to evaluate the client on concrete scenarios. Failures of
the transport are scripted: each clone and each push consumes the head of its
script, and an exhausted script means success. Files are keyed by the
locator string exactly as the client gives it; the cleaning of paths by the
filesystem and the way go-git builds a tree from index entries are not
modelled, so nothing is concluded from it about what a later clone holds at a
locator that begins with `"/"`. -/

/-- The remote side: the file tree at every branch tip, the scripted clone and
push outcomes, and the clock. -/
structure MemRemote where
  files : String → String → String → Option String
  cloneScript : List (Option GoError)
  pushScript : List (Option GoError)
  clock : Nat

/-- An in-memory clone: where it came from, its worktree, index and head
tree. -/
structure MemRepo where
  url : String
  ref : String
  worktree : String → Option String
  index : String → Option String
  head : String → Option String

/-- An open file of the in-memory filesystem. -/
structure MemFile where
  name : String
  data : String

/-- The map `m` with key `k` bound to `v`. -/
def bind (m : String → Option String) (k : String) (v : Option String) :
    String → Option String :=
  fun n => if n = k then v else m n

/-- The in-memory git library. -/
def memGit : Git MemRemote MemRepo MemFile where
  CloneContext o s :=
    match s.cloneScript with
    | some err :: rest => (.error err, { s with cloneScript := rest })
    | _ =>
      (.ok { url := o.URL, ref := o.ReferenceName
             worktree := s.files o.URL o.ReferenceName
             index := s.files o.URL o.ReferenceName
             head := s.files o.URL o.ReferenceName },
       { s with cloneScript := s.cloneScript.tail })
  Worktree _ := none
  Checkout r ref :=
    if ref = r.ref then .ok { r with worktree := r.head, index := r.head }
    else .error (.other "reference not found")
  Stat r n := if (r.worktree n).isSome then none else some .ErrNotExist
  OpenFile r n :=
    match r.worktree n with
    | some data => .ok { name := n, data := data }
    | none => .error .ErrNotExist
  ReadAll f := .ok f.data
  Create r n := .ok ({ name := n, data := "" }, { r with worktree := bind r.worktree n (some "") })
  FileWrite r f data := .ok { r with worktree := bind r.worktree f.name (some (f.data ++ data)) }
  Add r n := .ok { r with index := bind r.index n (r.worktree n) }
  Commit r _ _ := .ok { r with head := r.index }
  PushContext r _ _ s :=
    match s.pushScript with
    | some err :: rest => (some err, { s with pushScript := rest })
    | _ =>
      (none, { s with
                files := fun url ref => if url = r.url ∧ ref = r.ref then r.head else s.files url ref
                pushScript := s.pushScript.tail })
  Now s := s.clock

/-- The SDK `d.Set` restricted to the one key the resource sets. -/
def memSdk : Sdk where
  Set d key value :=
    if key = "content" then (none, { d with content := value })
    else (some (.other "Invalid address to set"), d)

/-- A remote holding one repository whose branch `main` has the single file
`/README`. -/
def remote0 : MemRemote :=
  { files := fun url ref n =>
      if url = "https://example.org/r.git" ∧ ref = "refs/heads/main" ∧ n = "/README"
      then some "readme" else none
    cloneScript := [], pushScript := [], clock := 7 }

/-- The provider's client for the scenarios. -/
def client0 : Client := NewClient "bot" "secret"

/-- The scenario request: write `"hello"` to `docs/readme.md` on `main`. -/
def request0 : WriteRequest :=
  { Repository := "https://example.org/r.git", Branch := "main", Path := "docs"
    FileName := "readme.md", Content := "hello", Name := "bot"
    Email := "bot@example.org", Postfix := "init" }

/-- The error go-git returns for a push the remote rejects because the branch
has moved on. -/
def rejection : GoError := .other "non-fast-forward update: refs/heads/main"

/-- A push failure of another kind. -/
def authFailure : GoError := .other "authentication required"

/-- The remote `remote0` with the next pushes scripted. -/
def remoteWithPushes (script : List (Option GoError)) : MemRemote :=
  { remote0 with pushScript := script }

/-- The remote `remote0` with the next clones scripted. -/
def remoteWithClones (script : List (Option GoError)) : MemRemote :=
  { remote0 with cloneScript := script }

/-- A library in which every stage before the push succeeds and every push is
rejected as a non-fast-forward update. -/
def rejectGit : Git Unit Unit Unit where
  CloneContext _ _ := (.ok (), ())
  Worktree _ := none
  Checkout _ _ := .ok ()
  Stat _ _ := none
  OpenFile _ _ := .ok ()
  ReadAll _ := .ok ""
  Create _ _ := .ok ((), ())
  FileWrite _ _ _ := .ok ()
  Add _ _ := .ok ()
  Commit _ _ _ := .ok ()
  PushContext _ _ _ _ := (some rejection, ())
  Now _ := 0

/-- A commit function that accepts the message of `request0` and no other. -/
def strictCommit (r : MemRepo) (msg : String) (a : Signature) : Except GoError MemRepo :=
  if msg = commitMessage request0 then memGit.Commit r msg a
  else .error (.other "unexpected commit message")

/-- A record naming a file at the top of the tree by `path` alone. -/
def recTop : ResourceData :=
  { id := "", repository := "https://example.org/r.git", folder := "", file_name := ""
    path := "top.txt", content := "hello", branch := "main", author := "bot"
    email := "bot@example.org", commitPostfix := "init" }

/-- The write request the resource builds for `recTop`. -/
def requestTop : WriteRequest :=
  writeRequestOf recTop (resolvePath recTop).1 (resolvePath recTop).2

/-- Five non-fast-forward rejections in a row are waiting at the remote. -/
def world5 : World MemRemote :=
  ⟨remoteWithPushes [some rejection, some rejection, some rejection, some rejection,
    some rejection], []⟩

/-- The world after one more attempt of `client0` on `request0`. -/
def afterAttempt (w : World MemRemote) : World MemRemote :=
  (client0.attempt memGit request0 w).world

/-- The second clone from this remote fails: a write gets through, the read
after it does not. -/
def worldFlaky : World MemRemote :=
  ⟨remoteWithClones [none, some (.other "connection refused")], []⟩

/-- The first clone from this remote fails. -/
def worldDown : World MemRemote :=
  ⟨remoteWithClones [some (.other "connection refused")], []⟩

/-- A record that gives `path` (and unrelated `folder`/`file_name`). -/
def recNested : ResourceData :=
  { id := "", repository := "https://example.org/r.git", folder := "x", file_name := "y"
    path := "a/b/c.txt", content := "hello", branch := "main", author := "bot"
    email := "bot@example.org", commitPostfix := "init" }

/-! ## Path resolution -/

theorem splitChars_ne_nil (sep : Char) (cs : List Char) : splitChars sep cs ≠ [] := by
  cases cs with
  | nil => simp [splitChars]
  | cons c cs =>
    unfold splitChars
    split
    · simp
    · split <;> simp

theorem Split_ne_nil (s : String) (sep : Char) : Split s sep ≠ [] := by
  simp [Split, splitChars_ne_nil]

theorem splitChars_no_sep (sep : Char) (cs : List Char) :
    ∀ seg ∈ splitChars sep cs, sep ∉ seg := by
  induction cs with
  | nil => simp [splitChars]
  | cons c cs ih =>
    unfold splitChars
    split
    · intro seg hseg
      rcases List.mem_cons.1 hseg with h | h
      · simp [h]
      · exact ih seg h
    · rename_i hc
      split
      · intro seg hseg
        simp only [List.mem_singleton] at hseg
        subst hseg
        simpa using Ne.symm hc
      · rename_i seg0 rest heq
        intro seg hseg
        rw [heq] at ih
        rcases List.mem_cons.1 hseg with h | h
        · subst h
          have h0 := ih seg0 (List.mem_cons_self _ _)
          simp only [List.mem_cons, not_or]
          exact ⟨Ne.symm hc, h0⟩
        · exact ih seg (List.mem_cons_of_mem _ h)

theorem Join_cons_char (c : Char) (seg : List Char) (rest : List String) (sep : String) :
    Join (String.mk (c :: seg) :: rest) sep
      = String.mk [c] ++ Join (String.mk seg :: rest) sep := by
  cases rest with
  | nil => simp only [Join]; apply String.ext; simp
  | cons b rest =>
    simp only [Join]
    apply String.ext
    simp

theorem Join_splitChars (cs : List Char) :
    Join ((splitChars '/' cs).map String.mk) "/" = String.mk cs := by
  induction cs with
  | nil => simp [splitChars, Join]
  | cons c cs ih =>
    unfold splitChars
    split
    · rename_i hc
      subst hc
      cases hsp : splitChars '/' cs with
      | nil => exact absurd hsp (splitChars_ne_nil _ _)
      | cons seg rest =>
        rw [hsp] at ih
        simp only [List.map_cons, Join] at ih ⊢
        rw [ih]
        apply String.ext
        simp
    · split
      · rename_i heq
        exact absurd heq (splitChars_ne_nil _ _)
      · rename_i seg rest heq
        rw [heq] at ih
        simp only [List.map_cons] at ih ⊢
        rw [Join_cons_char, ih]
        apply String.ext
        simp

theorem Join_Split (s : String) : Join (Split s '/') "/" = s := by
  unfold Split
  rw [Join_splitChars]

/-- Claim C1. `resolvePath`: when `path` is non-empty the folder is the
`"/"`-join of all segments of `path` but the last and the file name is the
last segment, where the segments are those of splitting `path` on `"/"`
(joining them with `"/"` gives `path` back and no segment holds a `"/"`);
when `path` is empty the result is the record's `folder` and `file_name`. -/
theorem resolvePath_spec (d : ResourceData) :
    (d.path ≠ "" →
      (resolvePath d).1 = Join (Split d.path '/').dropLast "/" ∧
      (Split d.path '/').getLast? = some (resolvePath d).2 ∧
      Join (Split d.path '/') "/" = d.path ∧
      ∀ seg ∈ Split d.path '/', '/' ∉ seg.data) ∧
    (d.path = "" → resolvePath d = (d.folder, d.file_name)) := by
  refine ⟨fun hp => ⟨?_, ?_, Join_Split _, ?_⟩, fun hp => ?_⟩
  · unfold resolvePath
    simp only [hp, if_false]
    split
    · simp [List.dropLast_eq_take]
    · rename_i hlen
      have h1 : (Split d.path '/').length = 1 := by
        have := List.length_pos.2 (Split_ne_nil d.path '/')
        omega
      obtain ⟨a, ha⟩ := List.length_eq_one.1 h1
      simp [ha, Join]
  · unfold resolvePath
    simp only [hp, if_false]
    have hne := Split_ne_nil d.path '/'
    split
    · rw [List.getLast?_eq_getElem?]
      simp only [List.getD_eq_getElem?_getD]
      have hlt : (Split d.path '/').length - 1 < (Split d.path '/').length := by omega
      simp [List.getElem?_eq_getElem hlt]
    · rename_i hlen
      have h1 : (Split d.path '/').length = 1 := by
        have := List.length_pos.2 hne
        omega
      obtain ⟨a, ha⟩ := List.length_eq_one.1 h1
      simp [ha]
  · intro seg hseg
    unfold Split at hseg
    obtain ⟨l, hl, rfl⟩ := List.mem_map.1 hseg
    exact splitChars_no_sep '/' _ l hl
  · unfold resolvePath
    simp [hp]

/-- The two paths named by the specification, and a record without `path`. -/
theorem resolvePath_spec_witness :
    resolvePath recNested = ("a/b", "c.txt") ∧
    resolvePath { recNested with path := "c.txt" } = ("", "c.txt") ∧
    resolvePath { recNested with path := "" } = ("x", "y") ∧
    (resolvePath recNested).1 = Join (Split recNested.path '/').dropLast "/" ∧
    resolvePath { recNested with path := "" }
      = ({ recNested with path := "" }.folder, { recNested with path := "" }.file_name) :=
  ⟨by decide, by decide, by decide,
   ((resolvePath_spec recNested).1 (by decide)).1,
   (resolvePath_spec { recNested with path := "" }).2 rfl⟩

/-! ## One attempt of `Write` -/

theorem newCalls_append {σ : Type} (w w1 : World σ) (new : List Event)
    (h : w1.trace = w.trace ++ new) : newCalls w w1 = new := by
  simp [newCalls, h]

theorem attempt_pushed_trace {σ ρ φ : Type} (c : Client) (g : Git σ ρ φ)
    (request : WriteRequest) (w w1 : World σ) (e : Option GoError)
    (h : c.attempt g request w = .pushed e w1) :
    w1.trace = w.trace ++ [cloneEvent request.toReadRequest,
      Event.commit (commitMessage request) (c.author g request w), Event.push] := by
  simp only [Client.attempt, doClone, doCommit, doPush] at h
  repeat' split at h
  all_goals first
    | exact Attempt.noConfusion h
    | skip
  rename_i hclone _ _ _ _ _ _ _ _ _ _ _ _ _ _ _ _ _ _ hcommit
  simp only [Prod.mk.injEq, Attempt.pushed.injEq] at hclone hcommit h
  obtain ⟨-, rfl⟩ := hclone
  obtain ⟨-, rfl⟩ := hcommit
  obtain ⟨-, rfl⟩ := h
  simp [cloneEvent, Client.author, Client.cloneOptions]

theorem attempt_failed_trace {σ ρ φ : Type} (c : Client) (g : Git σ ρ φ)
    (request : WriteRequest) (w w1 : World σ) (err : GoError)
    (h : c.attempt g request w = .failed err w1) :
    w1.trace = w.trace ++ [cloneEvent request.toReadRequest] ∨
    w1.trace = w.trace ++ [cloneEvent request.toReadRequest,
      Event.commit (commitMessage request) (c.author g request w)] := by
  simp only [Client.attempt, doClone, doCommit, doPush] at h
  repeat' split at h
  all_goals first
    | exact Attempt.noConfusion h
    | (simp only [Prod.mk.injEq, Attempt.failed.injEq] at *
       casesm* _ ∧ _
       subst_vars
       simp [cloneEvent, Client.author, Client.cloneOptions])

/-! ## The retry loop -/

/-- Unfolding of `WriteFrom`: one attempt, then the decision on its push. -/
theorem WriteFrom_unfold {σ ρ φ : Type} (c : Client) (g : Git σ ρ φ) (request : WriteRequest)
    (tries : Nat) (w : World σ) :
    c.WriteFrom g request tries w =
      match c.attempt g request w with
      | .failed err w1 => (some err, w1)
      | .pushed (some err) w2 =>
        if isNonFastForward err then
          if tries + 1 > 3 then
            (some (.wrap err "failed to push. retried 3 times"), w2)
          else
            c.WriteFrom g request (tries + 1) w2
        else
          (some (.wrap err "failed to push"), w2)
      | .pushed none w2 => (none, w2) := by
  rw [Client.WriteFrom]

/-- Induction along the retries of `WriteFrom`. -/
theorem WriteFrom_cases {σ ρ φ : Type} (c : Client) (g : Git σ ρ φ) (request : WriteRequest)
    (P : Nat → World σ → Option GoError × World σ → Prop)
    (hfailed : ∀ tries w err w1, c.attempt g request w = .failed err w1 →
      P tries w (some err, w1))
    (hdone : ∀ tries w w2, c.attempt g request w = .pushed none w2 → P tries w (none, w2))
    (hother : ∀ tries w err w2, c.attempt g request w = .pushed (some err) w2 →
      isNonFastForward err = false → P tries w (some (.wrap err "failed to push"), w2))
    (hspent : ∀ tries w err w2, c.attempt g request w = .pushed (some err) w2 →
      isNonFastForward err = true → 3 ≤ tries →
      P tries w (some (.wrap err "failed to push. retried 3 times"), w2))
    (hretry : ∀ tries w err w2, c.attempt g request w = .pushed (some err) w2 →
      isNonFastForward err = true → tries < 3 →
      P (tries + 1) w2 (c.WriteFrom g request (tries + 1) w2) →
      P tries w (c.WriteFrom g request (tries + 1) w2))
    (tries : Nat) (w : World σ) : P tries w (c.WriteFrom g request tries w) := by
  generalize hn : 3 - tries = n
  induction n generalizing tries w with
  | zero =>
    rw [WriteFrom_unfold]
    split
    · exact hfailed _ _ _ _ ‹_›
    · rename_i err w2 hatt
      cases hnf : isNonFastForward err with
      | true =>
        have h3 : tries + 1 > 3 := by omega
        simp only [if_true, h3]
        exact hspent _ _ _ _ hatt hnf (by omega)
      | false =>
        simp only [Bool.false_eq_true, if_false]
        exact hother _ _ _ _ hatt hnf
    · exact hdone _ _ _ ‹_›
  | succ n ih =>
    rw [WriteFrom_unfold]
    split
    · exact hfailed _ _ _ _ ‹_›
    · rename_i err w2 hatt
      cases hnf : isNonFastForward err with
      | true =>
        have h3 : ¬ (tries + 1 > 3) := by omega
        simp only [if_true, h3, if_false]
        exact hretry _ _ _ _ hatt hnf (by omega) (ih (tries + 1) w2 (by omega))
      | false =>
        simp only [Bool.false_eq_true, if_false]
        exact hother _ _ _ _ hatt hnf
    · exact hdone _ _ _ ‹_›

theorem clones_attempt (a : Signature) (msg : String) (request : ReadRequest) :
    clones [cloneEvent request, Event.commit msg a, Event.push] = 1 ∧
    pushes [cloneEvent request, Event.commit msg a, Event.push] = 1 ∧
    clones [cloneEvent request] = 1 ∧ pushes [cloneEvent request] = 0 ∧
    clones [cloneEvent request, Event.commit msg a] = 1 ∧
    pushes [cloneEvent request, Event.commit msg a] = 0 := by
  simp [clones, pushes, cloneEvent, List.countP_cons]

theorem clones_append (s t : List Event) : clones (s ++ t) = clones s + clones t := by
  simp [clones, List.countP_append]

theorem pushes_append (s t : List Event) : pushes (s ++ t) = pushes s + pushes t := by
  simp [pushes, List.countP_append]

/-- What every run of `WriteFrom` records: at least one clone, no more
attempts than the budget left, and only commits carrying the request's
message and identity. -/
theorem WriteFrom_trace {σ ρ φ : Type} (c : Client) (g : Git σ ρ φ) (request : WriteRequest)
    (tries : Nat) (w : World σ) :
    ∃ new, (c.WriteFrom g request tries w).2.trace = w.trace ++ new ∧
      1 ≤ clones new ∧ pushes new ≤ clones new ∧
      (clones new + tries ≤ 4 ∨ clones new = 1) ∧
      (∀ msg a, Event.commit msg a ∈ new →
        msg = commitMessage request ∧ a.Name = request.Name ∧ a.Email = request.Email) ∧
      ((c.WriteFrom g request tries w).1 = none →
        ∃ a, Event.commit (commitMessage request) a ∈ new) := by
  refine WriteFrom_cases c g request
    (fun tries w res => ∃ new, res.2.trace = w.trace ++ new ∧
      1 ≤ clones new ∧ pushes new ≤ clones new ∧
      (clones new + tries ≤ 4 ∨ clones new = 1) ∧
      (∀ msg a, Event.commit msg a ∈ new →
        msg = commitMessage request ∧ a.Name = request.Name ∧ a.Email = request.Email) ∧
      (res.1 = none → ∃ a, Event.commit (commitMessage request) a ∈ new))
    ?_ ?_ ?_ ?_ ?_ tries w
  · intro tries w err w1 hatt
    have hc := clones_attempt (c.author g request w) (commitMessage request)
      request.toReadRequest
    rcases attempt_failed_trace c g request w w1 err hatt with h | h
    · refine ⟨_, h, ?_, ?_, Or.inr hc.2.2.1, ?_, ?_⟩
      · omega
      · omega
      · intro msg a hm
        simp [cloneEvent] at hm
      · intro hn
        simp at hn
    · refine ⟨_, h, ?_, ?_, Or.inr hc.2.2.2.2.1, ?_, ?_⟩
      · omega
      · omega
      · intro msg a hm
        simp only [cloneEvent, List.mem_cons, List.mem_singleton, Event.commit.injEq,
          List.not_mem_nil, or_false, false_or, reduceCtorEq] at hm
        obtain ⟨rfl, rfl⟩ := hm
        exact ⟨rfl, rfl, rfl⟩
      · intro hn
        simp at hn
  · intro tries w w2 hatt
    have hc := clones_attempt (c.author g request w) (commitMessage request)
      request.toReadRequest
    refine ⟨_, attempt_pushed_trace c g request w w2 _ hatt, ?_, ?_, Or.inr hc.1, ?_, ?_⟩
    · omega
    · omega
    · intro msg a hm
      simp only [cloneEvent, List.mem_cons, List.mem_singleton, Event.commit.injEq,
        List.not_mem_nil, or_false, false_or, reduceCtorEq] at hm
      obtain ⟨rfl, rfl⟩ := hm
      exact ⟨rfl, rfl, rfl⟩
    · intro _
      exact ⟨c.author g request w, by simp⟩
  · intro tries w err w2 hatt _
    have hc := clones_attempt (c.author g request w) (commitMessage request)
      request.toReadRequest
    refine ⟨_, attempt_pushed_trace c g request w w2 _ hatt, ?_, ?_, Or.inr hc.1, ?_, ?_⟩
    · omega
    · omega
    · intro msg a hm
      simp only [cloneEvent, List.mem_cons, List.mem_singleton, Event.commit.injEq,
        List.not_mem_nil, or_false, false_or, reduceCtorEq] at hm
      obtain ⟨rfl, rfl⟩ := hm
      exact ⟨rfl, rfl, rfl⟩
    · intro hn
      simp at hn
  · intro tries w err w2 hatt _ _
    have hc := clones_attempt (c.author g request w) (commitMessage request)
      request.toReadRequest
    refine ⟨_, attempt_pushed_trace c g request w w2 _ hatt, ?_, ?_, Or.inr hc.1, ?_, ?_⟩
    · omega
    · omega
    · intro msg a hm
      simp only [cloneEvent, List.mem_cons, List.mem_singleton, Event.commit.injEq,
        List.not_mem_nil, or_false, false_or, reduceCtorEq] at hm
      obtain ⟨rfl, rfl⟩ := hm
      exact ⟨rfl, rfl, rfl⟩
    · intro hn
      simp at hn
  · intro tries w err w2 hatt _ hlt ih
    obtain ⟨new, htr, h1, h2, h3, h4, h5⟩ := ih
    have hc := clones_attempt (c.author g request w) (commitMessage request)
      request.toReadRequest
    have hw2 := attempt_pushed_trace c g request w w2 _ hatt
    refine ⟨[cloneEvent request.toReadRequest,
      Event.commit (commitMessage request) (c.author g request w), Event.push] ++ new,
      ?_, ?_, ?_, ?_, ?_, ?_⟩
    · rw [htr, hw2, List.append_assoc]
    · rw [clones_append]; omega
    · rw [clones_append, pushes_append]; omega
    · rw [clones_append]; omega
    · intro msg a hm
      rcases List.mem_append.1 hm with hm | hm
      · simp only [cloneEvent, List.mem_cons, List.mem_singleton, Event.commit.injEq,
          List.not_mem_nil, or_false, false_or, reduceCtorEq] at hm
        obtain ⟨rfl, rfl⟩ := hm
        exact ⟨rfl, rfl, rfl⟩
      · exact h4 msg a hm
    · intro hn
      obtain ⟨a, ha⟩ := h5 hn
      exact ⟨a, List.mem_append_right _ ha⟩

/-- With every attempt reaching its push and every push rejected as a
non-fast-forward update, `WriteFrom` spends exactly the budget left. -/
theorem WriteFrom_all_rejected {σ ρ φ : Type} (c : Client) (g : Git σ ρ φ)
    (request : WriteRequest)
    (hrej : ∀ w : World σ, ∃ e w2, c.attempt g request w = .pushed (some e) w2 ∧
      isNonFastForward e = true)
    (tries : Nat) (w : World σ) :
    tries ≤ 3 → ∃ new e, (c.WriteFrom g request tries w).2.trace = w.trace ++ new ∧
      clones new = 4 - tries ∧ pushes new = 4 - tries ∧ isNonFastForward e = true ∧
      (c.WriteFrom g request tries w).1 = some (.wrap e "failed to push. retried 3 times") := by
  refine WriteFrom_cases c g request
    (fun tries w res => tries ≤ 3 → ∃ new e, res.2.trace = w.trace ++ new ∧
      clones new = 4 - tries ∧ pushes new = 4 - tries ∧ isNonFastForward e = true ∧
      res.1 = some (.wrap e "failed to push. retried 3 times"))
    ?_ ?_ ?_ ?_ ?_ tries w
  · intro tries w err w1 hatt
    obtain ⟨e, w2, h, -⟩ := hrej w
    rw [hatt] at h
    exact Attempt.noConfusion h
  · intro tries w w2 hatt
    obtain ⟨e, w3, h, -⟩ := hrej w
    rw [hatt] at h
    simp at h
  · intro tries w err w2 hatt hnf
    obtain ⟨e, w3, h, he⟩ := hrej w
    rw [hatt] at h
    simp only [Attempt.pushed.injEq, Option.some.injEq] at h
    rw [h.1, he] at hnf
    exact absurd hnf (by simp)
  · intro tries w err w2 hatt hnf h3 hle
    have hc := clones_attempt (c.author g request w) (commitMessage request)
      request.toReadRequest
    refine ⟨_, err, attempt_pushed_trace c g request w w2 _ hatt, ?_, ?_, hnf, rfl⟩
    · rw [hc.1]; omega
    · rw [hc.2.1]; omega
  · intro tries w err w2 hatt _ hlt ih hle
    obtain ⟨new, e, htr, h1, h2, h3, h4⟩ := ih (by omega)
    have hc := clones_attempt (c.author g request w) (commitMessage request)
      request.toReadRequest
    have hw2 := attempt_pushed_trace c g request w w2 _ hatt
    refine ⟨[cloneEvent request.toReadRequest,
      Event.commit (commitMessage request) (c.author g request w), Event.push] ++ new,
      e, ?_, ?_, ?_, h3, h4⟩
    · rw [htr, hw2, List.append_assoc]
    · rw [clones_append]; omega
    · rw [pushes_append]; omega

theorem WriteFrom_retry {σ ρ φ : Type} (c : Client) (g : Git σ ρ φ) (request : WriteRequest)
    (tries : Nat) (w w2 : World σ) (e : GoError)
    (hatt : c.attempt g request w = .pushed (some e) w2)
    (hnf : isNonFastForward e = true) (hlt : tries < 3) :
    c.WriteFrom g request tries w = c.WriteFrom g request (tries + 1) w2 := by
  rw [WriteFrom_unfold, hatt]
  have h3 : ¬ (tries + 1 > 3) := by omega
  simp [hnf, h3]

theorem WriteFrom_spent {σ ρ φ : Type} (c : Client) (g : Git σ ρ φ) (request : WriteRequest)
    (tries : Nat) (w w2 : World σ) (e : GoError)
    (hatt : c.attempt g request w = .pushed (some e) w2)
    (hnf : isNonFastForward e = true) (hge : 3 ≤ tries) :
    c.WriteFrom g request tries w
      = (some (.wrap e "failed to push. retried 3 times"), w2) := by
  rw [WriteFrom_unfold, hatt]
  have h3 : tries + 1 > 3 := by omega
  simp [hnf, h3]

theorem WriteFrom_done {σ ρ φ : Type} (c : Client) (g : Git σ ρ φ) (request : WriteRequest)
    (tries : Nat) (w w2 : World σ)
    (hatt : c.attempt g request w = .pushed none w2) :
    c.WriteFrom g request tries w = (none, w2) := by
  rw [WriteFrom_unfold, hatt]

theorem WriteFrom_failed {σ ρ φ : Type} (c : Client) (g : Git σ ρ φ) (request : WriteRequest)
    (tries : Nat) (w w1 : World σ) (err : GoError)
    (hatt : c.attempt g request w = .failed err w1) :
    c.WriteFrom g request tries w = (some err, w1) := by
  rw [WriteFrom_unfold, hatt]

/-- The run of `Write` against five scripted rejections. -/
theorem Write_world5 :
    client0.Write memGit request0 world5
      = (some (.wrap rejection "failed to push. retried 3 times"),
         afterAttempt (afterAttempt (afterAttempt (afterAttempt world5)))) := by
  have hr : isNonFastForward rejection = true := by decide
  unfold Client.Write
  rw [WriteFrom_retry client0 memGit request0 0 world5 (afterAttempt world5) rejection rfl hr
    (by omega)]
  rw [WriteFrom_retry client0 memGit request0 1 (afterAttempt world5)
    (afterAttempt (afterAttempt world5)) rejection rfl hr (by omega)]
  rw [WriteFrom_retry client0 memGit request0 2 (afterAttempt (afterAttempt world5))
    (afterAttempt (afterAttempt (afterAttempt world5))) rejection rfl hr (by omega)]
  rw [WriteFrom_spent client0 memGit request0 3
    (afterAttempt (afterAttempt (afterAttempt world5)))
    (afterAttempt (afterAttempt (afterAttempt (afterAttempt world5)))) rejection rfl hr
    (by omega)]

theorem label_messages_differ (e1 e2 : GoError) :
    (GoError.wrap e1 "failed to push. retried 3 times").Error
      ≠ (GoError.wrap e2 "failed to push").Error := by
  intro h
  have h2 := congrArg String.data h
  simp [GoError.Error] at h2

/-- A `WriteFrom` that returns no error ended with an attempt whose push
succeeded. -/
theorem WriteFrom_ok_attempt {σ ρ φ : Type} (c : Client) (g : Git σ ρ φ)
    (request : WriteRequest) (tries : Nat) (w : World σ) :
    (c.WriteFrom g request tries w).1 = none →
      ∃ wa, c.attempt g request wa = .pushed none (c.WriteFrom g request tries w).2 := by
  refine WriteFrom_cases c g request
    (fun _ _ res => res.1 = none → ∃ wa, c.attempt g request wa = .pushed none res.2)
    ?_ ?_ ?_ ?_ ?_ tries w
  · intro _ _ _ _ _ h
    simp at h
  · intro _ w w2 hatt _
    exact ⟨w, hatt⟩
  · intro _ _ _ _ _ _ h
    simp at h
  · intro _ _ _ _ _ _ _ h
    simp at h
  · intro _ _ _ _ _ _ _ ih h
    exact ih h

/-- The library calls behind an attempt whose push succeeded: the file is
created, written and staged under `Path + "/" + FileName`, committed with the
message template and the request's identity, and that commit is pushed. -/
theorem attempt_success_calls {σ ρ φ : Type} (c : Client) (g : Git σ ρ φ)
    (request : WriteRequest) (w w2 : World σ)
    (h : c.attempt g request w = .pushed none w2) :
    ∃ r0 s1 r1 f r2 r3 r4 r5,
      g.CloneContext (c.cloneOptions request.toReadRequest) w.remote = (.ok r0, s1) ∧
      g.Checkout r0 (branchRef request.Branch) = .ok r1 ∧
      g.Create r1 (request.Path ++ "/" ++ request.FileName) = .ok (f, r2) ∧
      g.FileWrite r2 f request.Content = .ok r3 ∧
      g.Add r3 (request.Path ++ "/" ++ request.FileName) = .ok r4 ∧
      g.Commit r4 (request.FileName ++ ": updated via terraform. " ++ request.Postfix)
        { Name := request.Name, Email := request.Email, When := g.Now s1 } = .ok r5 ∧
      g.PushContext r5 c.username c.password s1 = (none, w2.remote) := by
  simp only [Client.attempt, doClone, doCommit, doPush, sprintfSlash, commitMessage] at h
  repeat' split at h
  all_goals first
    | exact Attempt.noConfusion h
    | skip
  rename_i r0 _ hclone _ _ _ r1 hcheckout _ f r2 hcreate _ r3 hwrite _ r4 hadd _ r5 _ hcommit
  simp only [Prod.mk.injEq, Attempt.pushed.injEq] at hclone hcommit h
  obtain ⟨hclone, rfl⟩ := hclone
  obtain ⟨hcommit, rfl⟩ := hcommit
  obtain ⟨hpush, rfl⟩ := h
  refine ⟨r0, _, r1, f, r2, r3, r4, r5, ?_, hcheckout, hcreate, hwrite, hadd, hcommit, ?_⟩
  · rw [← hclone]
  · rw [← hpush]

/-- An attempt asks the library's `Commit` for the message template and the
request's identity only: a library that differs in `Commit` elsewhere gives
the same attempt. -/
theorem attempt_commit_only {σ ρ φ : Type} (c : Client) (g : Git σ ρ φ)
    (request : WriteRequest) (commit2 : ρ → String → Signature → Except GoError ρ)
    (hagree : ∀ r a, a.Name = request.Name → a.Email = request.Email →
      commit2 r (request.FileName ++ ": updated via terraform. " ++ request.Postfix) a
        = g.Commit r (request.FileName ++ ": updated via terraform. " ++ request.Postfix) a)
    (w : World σ) :
    c.attempt { g with Commit := commit2 } request w = c.attempt g request w := by
  have key : ∀ (r : ρ) (t : Nat),
      commit2 r (request.FileName ++ ": updated via terraform. " ++ request.Postfix)
        { Name := request.Name, Email := request.Email, When := t }
      = g.Commit r (request.FileName ++ ": updated via terraform. " ++ request.Postfix)
        { Name := request.Name, Email := request.Email, When := t } :=
    fun r _ => hagree r _ rfl rfl
  simp only [Client.attempt, doClone, doCommit, doPush, commitMessage, key]

theorem WriteFrom_commit_only {σ ρ φ : Type} (c : Client) (g : Git σ ρ φ)
    (request : WriteRequest) (commit2 : ρ → String → Signature → Except GoError ρ)
    (hagree : ∀ r a, a.Name = request.Name → a.Email = request.Email →
      commit2 r (request.FileName ++ ": updated via terraform. " ++ request.Postfix) a
        = g.Commit r (request.FileName ++ ": updated via terraform. " ++ request.Postfix) a)
    (tries : Nat) (w : World σ) :
    c.WriteFrom { g with Commit := commit2 } request tries w
      = c.WriteFrom g request tries w := by
  generalize hn : 3 - tries = n
  induction n generalizing tries w with
  | zero =>
    rw [WriteFrom_unfold, WriteFrom_unfold, attempt_commit_only c g request commit2 hagree]
    have h3 : tries + 1 > 3 := by omega
    simp only [h3, if_true]
  | succ n ih =>
    rw [WriteFrom_unfold, WriteFrom_unfold, attempt_commit_only c g request commit2 hagree]
    have h3 : ¬ (tries + 1 > 3) := by omega
    cases c.attempt g request w with
    | failed err w1 => rfl
    | pushed e w2 =>
      cases e with
      | none => rfl
      | some err =>
        simp only [h3, if_false]
        rw [ih (tries + 1) w2 (by omega)]

/-! ## Claims on `Client.Write` -/

/-- Claim C2. `Write` records at least one and at most four clones and at most
four pushes (one attempt and at most three retries), for every library and
remote; when every attempt reaches its push and every push is rejected as a
non-fast-forward update, it makes exactly four clones and four pushes and
returns the rejection wrapped as "failed to push. retried 3 times", whose
message differs from that of every error wrapped as "failed to push". -/
theorem Write_retry_budget {σ ρ φ : Type} (c : Client) (g : Git σ ρ φ)
    (request : WriteRequest) (w : World σ) :
    ((c.Write g request w).2.trace = w.trace ++ newCalls w (c.Write g request w).2 ∧
      1 ≤ clones (newCalls w (c.Write g request w).2) ∧
      clones (newCalls w (c.Write g request w).2) ≤ 4 ∧
      pushes (newCalls w (c.Write g request w).2) ≤ 4) ∧
    ((∀ w1 : World σ, ∃ e w2, c.attempt g request w1 = .pushed (some e) w2 ∧
        isNonFastForward e = true) →
      clones (newCalls w (c.Write g request w).2) = 4 ∧
      pushes (newCalls w (c.Write g request w).2) = 4 ∧
      ∃ e, isNonFastForward e = true ∧
        (c.Write g request w).1 = some (.wrap e "failed to push. retried 3 times") ∧
        ∀ e2 : GoError, (GoError.wrap e "failed to push. retried 3 times").Error
          ≠ (GoError.wrap e2 "failed to push").Error) := by
  constructor
  · obtain ⟨new, htr, h1, h2, h3, -, -⟩ := WriteFrom_trace c g request 0 w
    have hn : newCalls w (c.Write g request w).2 = new := newCalls_append _ _ _ htr
    rw [hn]
    refine ⟨htr, h1, ?_, ?_⟩ <;> omega
  · intro hrej
    obtain ⟨new, e, htr, h1, h2, h3, h4⟩ := WriteFrom_all_rejected c g request hrej 0 w
      (by omega)
    have hn : newCalls w (c.Write g request w).2 = new := newCalls_append _ _ _ htr
    rw [hn]
    exact ⟨h1, h2, e, h3, h4, fun e2 => label_messages_differ e e2⟩

/-- Claim C3. When the push of an attempt fails with an error that is not a
non-fast-forward rejection, `Write` returns that error wrapped as "failed to
push" in the world right after that push, whatever the number of tries so
far; when this is the first attempt, exactly one clone and one push were
made. -/
theorem Write_other_push_failure {σ ρ φ : Type} (c : Client) (g : Git σ ρ φ)
    (request : WriteRequest) (tries : Nat) (w w2 : World σ) (e : GoError)
    (hatt : c.attempt g request w = .pushed (some e) w2)
    (hnf : isNonFastForward e = false) :
    c.WriteFrom g request tries w = (some (.wrap e "failed to push"), w2) ∧
    c.Write g request w = (some (.wrap e "failed to push"), w2) ∧
    newCalls w (c.Write g request w).2 = [cloneEvent request.toReadRequest,
      Event.commit (commitMessage request) (c.author g request w), Event.push] ∧
    clones (newCalls w (c.Write g request w).2) = 1 ∧
    pushes (newCalls w (c.Write g request w).2) = 1 := by
  have hgen : ∀ t, c.WriteFrom g request t w = (some (.wrap e "failed to push"), w2) := by
    intro t
    rw [WriteFrom_unfold, hatt]
    simp [hnf]
  have hw : c.Write g request w = (some (.wrap e "failed to push"), w2) := hgen 0
  have hn := newCalls_append w w2 _ (attempt_pushed_trace c g request w w2 _ hatt)
  have hc := clones_attempt (c.author g request w) (commitMessage request)
    request.toReadRequest
  refine ⟨hgen tries, hw, ?_, ?_, ?_⟩
  · rw [hw]; exact hn
  · rw [hw]; simp only; rw [hn]; exact hc.1
  · rw [hw]; simp only; rw [hn]; exact hc.2.1

/-- Witness of C2 in a library whose every push is rejected. -/
theorem Write_retry_budget_witness :
    clones (newCalls ⟨(), []⟩ (client0.Write rejectGit request0 ⟨(), []⟩).2) = 4 ∧
    pushes (newCalls ⟨(), []⟩ (client0.Write rejectGit request0 ⟨(), []⟩).2) = 4 ∧
    ∃ e, isNonFastForward e = true ∧
      (client0.Write rejectGit request0 ⟨(), []⟩).1
        = some (.wrap e "failed to push. retried 3 times") ∧
      ∀ e2 : GoError, (GoError.wrap e "failed to push. retried 3 times").Error
        ≠ (GoError.wrap e2 "failed to push").Error :=
  (Write_retry_budget client0 rejectGit request0 ⟨(), []⟩).2
    (fun _ => ⟨rejection, _, rfl, by decide⟩)

/-- Witness of C3: the first push fails on authentication. -/
theorem Write_other_push_failure_witness :
    isNonFastForward authFailure = false ∧
    (client0.Write memGit request0 ⟨remoteWithPushes [some authFailure], []⟩).1
      = some (.wrap authFailure "failed to push") ∧
    clones (newCalls ⟨remoteWithPushes [some authFailure], []⟩
      (client0.Write memGit request0 ⟨remoteWithPushes [some authFailure], []⟩).2) = 1 ∧
    pushes (newCalls ⟨remoteWithPushes [some authFailure], []⟩
      (client0.Write memGit request0 ⟨remoteWithPushes [some authFailure], []⟩).2) = 1 :=
  have h := Write_other_push_failure client0 memGit request0 0
    ⟨remoteWithPushes [some authFailure], []⟩ _ authFailure rfl (by decide)
  ⟨by decide, congrArg Prod.fst h.2.1, h.2.2.2.1, h.2.2.2.2⟩

/-- Claim C6. The commit of `Write` is made with the message
`FileName ++ ": updated via terraform. " ++ Postfix`:
when `Write` returns without error, the library's `Commit` was called with
that message and the request's name and email, it succeeded, and the
repository it returned is the one whose push ended the call;
`Write` passes no other message to `Commit`, since replacing `Commit` by any
function that agrees with it on that message and identity leaves `Write`
unchanged; every commit call recorded carries that message;
two requests with the same `FileName` and `Postfix` give the same message
whatever their other fields; and for `FileName = "readme.md"`,
`Postfix = "init"` the message is `"readme.md: updated via terraform. init"`. -/
theorem commit_message_template {σ ρ φ : Type} (c : Client) (g : Git σ ρ φ)
    (request : WriteRequest) (w : World σ) :
    ((c.Write g request w).1 = none →
      ∃ r a r1 s, a.Name = request.Name ∧ a.Email = request.Email ∧
        g.Commit r (request.FileName ++ ": updated via terraform. " ++ request.Postfix) a
          = .ok r1 ∧
        g.PushContext r1 c.username c.password s = (none, (c.Write g request w).2.remote)) ∧
    (∀ commit2 : ρ → String → Signature → Except GoError ρ,
      (∀ r a, a.Name = request.Name → a.Email = request.Email →
        commit2 r (request.FileName ++ ": updated via terraform. " ++ request.Postfix) a
          = g.Commit r (request.FileName ++ ": updated via terraform. " ++ request.Postfix) a) →
      c.Write { g with Commit := commit2 } request w = c.Write g request w) ∧
    (∀ msg a, Event.commit msg a ∈ newCalls w (c.Write g request w).2 →
      msg = request.FileName ++ ": updated via terraform. " ++ request.Postfix) ∧
    ((c.Write g request w).1 = none →
      ∃ a, Event.commit (request.FileName ++ ": updated via terraform. " ++ request.Postfix) a
        ∈ newCalls w (c.Write g request w).2) ∧
    (∀ request2 : WriteRequest, request2.FileName = request.FileName →
      request2.Postfix = request.Postfix → commitMessage request2 = commitMessage request) ∧
    (request.FileName = "readme.md" → request.Postfix = "init" →
      commitMessage request = "readme.md: updated via terraform. init") := by
  obtain ⟨new, htr, -, -, -, h4, h5⟩ := WriteFrom_trace c g request 0 w
  have hn : newCalls w (c.Write g request w).2 = new := newCalls_append _ _ _ htr
  refine ⟨?_, ?_, ?_, ?_, ?_, ?_⟩
  · intro hok
    obtain ⟨wa, hatt⟩ := WriteFrom_ok_attempt c g request 0 w hok
    obtain ⟨r0, s1, r1, f, r2, r3, r4, r5, -, -, -, -, -, hcommit, hpush⟩ :=
      attempt_success_calls c g request wa _ hatt
    exact ⟨r4, _, r5, s1, rfl, rfl, hcommit, hpush⟩
  · intro commit2 hagree
    exact WriteFrom_commit_only c g request commit2 hagree 0 w
  · intro msg a hm
    rw [hn] at hm
    exact (h4 msg a hm).1
  · intro hok
    rw [hn]
    exact h5 hok
  · intro request2 hf hp
    simp [commitMessage, hf, hp]
  · intro hf hp
    simp [commitMessage, hf, hp]

/-- The scenario of the specification: writing `docs/readme.md` with postfix
`"init"` to a branch that lacks it. The commit is made by the library with the
message `"readme.md: updated via terraform. init"`, and a library refusing
every other message serves the write just as well. -/
theorem commit_message_template_witness :
    (client0.Write memGit request0 ⟨remote0, []⟩).1 = none ∧
    (∃ r a r1 s, a.Name = "bot" ∧ a.Email = "bot@example.org" ∧
      memGit.Commit r (request0.FileName ++ ": updated via terraform. " ++ request0.Postfix) a
        = .ok r1 ∧
      memGit.PushContext r1 client0.username client0.password s
        = (none, (client0.Write memGit request0 ⟨remote0, []⟩).2.remote)) ∧
    client0.Write { memGit with Commit := strictCommit } request0 ⟨remote0, []⟩
      = client0.Write memGit request0 ⟨remote0, []⟩ ∧
    (∃ a, Event.commit (request0.FileName ++ ": updated via terraform. " ++ request0.Postfix) a
      ∈ newCalls ⟨remote0, []⟩ (client0.Write memGit request0 ⟨remote0, []⟩).2) ∧
    request0.FileName ++ ": updated via terraform. " ++ request0.Postfix
      = "readme.md: updated via terraform. init" ∧
    commitMessage request0 = "readme.md: updated via terraform. init" :=
  have hok : (client0.Write memGit request0 ⟨remote0, []⟩).1 = none :=
    congrArg Prod.fst (WriteFrom_done client0 memGit request0 0 ⟨remote0, []⟩
      (afterAttempt ⟨remote0, []⟩) rfl)
  have h := commit_message_template client0 memGit request0 ⟨remote0, []⟩
  ⟨hok, h.1 hok,
   h.2.1 strictCommit (fun r a _ _ => by simp [strictCommit, commitMessage]),
   h.2.2.2.1 hok, by decide, h.2.2.2.2.2 rfl rfl⟩

/-- Claim C7, as the code has it. A non-fast-forward rejection met with fewer
than three tries used starts another attempt; one met with three tries used
(the fourth rejection in a row) returns the rejection wrapped as "failed to
push. retried 3 times"; so when every attempt reaches its push and every push
is rejected, `Write` makes exactly four pushes, three of them retries, and
returns that error. -/
theorem Write_exhaustion_point {σ ρ φ : Type} (c : Client) (g : Git σ ρ φ)
    (request : WriteRequest) :
    (∀ (tries : Nat) (w w2 : World σ) (e : GoError),
      c.attempt g request w = .pushed (some e) w2 → isNonFastForward e = true →
        (tries < 3 → c.WriteFrom g request tries w = c.WriteFrom g request (tries + 1) w2) ∧
        (tries = 3 → c.WriteFrom g request tries w
          = (some (.wrap e "failed to push. retried 3 times"), w2))) ∧
    ((∀ w1 : World σ, ∃ e w2, c.attempt g request w1 = .pushed (some e) w2 ∧
        isNonFastForward e = true) →
      ∀ w : World σ,
        pushes (newCalls w (c.Write g request w).2) = 4 ∧
        clones (newCalls w (c.Write g request w).2) - 1 = 3 ∧
        ∃ e, isNonFastForward e = true ∧
          (c.Write g request w).1 = some (.wrap e "failed to push. retried 3 times")) := by
  constructor
  · intro tries w w2 e hatt hnf
    exact ⟨fun hlt => WriteFrom_retry c g request tries w w2 e hatt hnf hlt,
      fun h3 => WriteFrom_spent c g request tries w w2 e hatt hnf (by omega)⟩
  · intro hrej w
    obtain ⟨new, e, htr, h1, h2, h3, h4⟩ := WriteFrom_all_rejected c g request hrej 0 w
      (by omega)
    have hn : newCalls w (c.Write g request w).2 = new := newCalls_append _ _ _ htr
    rw [hn]
    exact ⟨h2, by omega, e, h3, h4⟩

/-- Witness of C7 in a library whose every push is rejected. -/
theorem Write_exhaustion_point_witness :
    pushes (newCalls ⟨(), []⟩ (client0.Write rejectGit request0 ⟨(), []⟩).2) = 4 ∧
    clones (newCalls ⟨(), []⟩ (client0.Write rejectGit request0 ⟨(), []⟩).2) - 1 = 3 ∧
    ∃ e, isNonFastForward e = true ∧
      (client0.Write rejectGit request0 ⟨(), []⟩).1
        = some (.wrap e "failed to push. retried 3 times") :=
  (Write_exhaustion_point client0 rejectGit request0).2
    (fun _ => ⟨rejection, _, rfl, by decide⟩) ⟨(), []⟩

/-- Claim C7 as stated fails: with five rejections waiting at the remote,
`Write` returns the retry-exhausted error after its fourth push; the fifth
rejection is never met and stays in the script. -/
theorem exhaustion_before_fifth_rejection :
    (client0.Write memGit request0 world5).1
      = some (.wrap rejection "failed to push. retried 3 times") ∧
    pushes (client0.Write memGit request0 world5).2.trace = 4 ∧
    (client0.Write memGit request0 world5).2.remote.pushScript = [some rejection] ∧
    ¬ pushes (client0.Write memGit request0 world5).2.trace = 5 := by
  rw [Write_world5]
  refine ⟨rfl, by decide, rfl, by decide⟩

/-! ## Claims on `Client.Read` and on the resource functions -/

/-- Claim C4. When the clone and the worktree access succeed and the
filesystem of the worktree reports the locator `Path + "/" + FileName` as not
existing (`Stat` returns `os.ErrNotExist`), `Read` returns the response
`Exists = false` with nil `Contents`, and no error. -/
theorem Read_missing_file {σ ρ φ : Type} (c : Client) (g : Git σ ρ φ)
    (request : ReadRequest) (w : World σ) (r : ρ) (s1 : σ)
    (hclone : g.CloneContext (c.cloneOptions request) w.remote = (.ok r, s1))
    (hwt : g.Worktree r = none)
    (hstat : g.Stat r (request.Path ++ "/" ++ request.FileName) = some .ErrNotExist) :
    (c.Read g request w).1 = .ok { Exists := false, Contents := none } := by
  simp [Client.Read, doClone, hclone, hwt, sprintfSlash, hstat]

/-- Witness of C4: `docs/readme.md` is not on `main` of the remote. -/
theorem Read_missing_file_witness :
    (client0.Read memGit request0.toReadRequest ⟨remote0, []⟩).1
      = .ok { Exists := false, Contents := none } :=
  Read_missing_file client0 memGit request0.toReadRequest ⟨remote0, []⟩ _ _ rfl rfl
    (by decide)

/-- Claim C8. `resourceGitFileDelete` returns no diagnostics and leaves the
record and the world as they were: nothing is cloned, committed or pushed, so
neither `Read` nor `Write` ran and the remote is untouched. -/
theorem Delete_is_noop {σ ρ φ : Type} (sdk : Sdk) (g : Git σ ρ φ) (m : Client)
    (d : ResourceData) (w : World σ) :
    (resourceGitFileDelete sdk g m d w).1 = [] ∧
    (resourceGitFileDelete sdk g m d w).2.1 = d ∧
    (resourceGitFileDelete sdk g m d w).2.2.remote = w.remote ∧
    (resourceGitFileDelete sdk g m d w).2.2.trace = w.trace ∧
    newCalls w (resourceGitFileDelete sdk g m d w).2.2 = [] := by
  simp [resourceGitFileDelete, newCalls]

/-- Claim C10. When `Write` succeeds, `resourceGitFileCreate` returns empty
diagnostics whatever the following `resourceGitFileRead` returns, while
`resourceGitFileUpdate` returns exactly what that `resourceGitFileRead`
returns; when `Write` fails, both return the error wrapped as "failed to
write file" and end in the world `Write` left, without a read. -/
theorem Create_discards_Update_returns {σ ρ φ : Type} (sdk : Sdk) (g : Git σ ρ φ)
    (m : Client) (d : ResourceData) (w : World σ) :
    (∀ w1, m.Write g (writeRequestOf d (resolvePath d).1 (resolvePath d).2) w = (none, w1) →
      (resourceGitFileCreate sdk g m d w).1 = [] ∧
      (resourceGitFileCreate sdk g m d w).2
        = (resourceGitFileRead sdk g m
            { d with id := (resolvePath d).1 ++ "/" ++ (resolvePath d).2 } w1).2 ∧
      resourceGitFileUpdate sdk g m d w = resourceGitFileRead sdk g m d w1) ∧
    (∀ err w1,
      m.Write g (writeRequestOf d (resolvePath d).1 (resolvePath d).2) w = (some err, w1) →
      resourceGitFileCreate sdk g m d w
        = (FromErr (.wrap err "failed to write file"),
           { d with id := (resolvePath d).1 ++ "/" ++ (resolvePath d).2 }, w1) ∧
      resourceGitFileUpdate sdk g m d w
        = (FromErr (.wrap err "failed to write file"), d, w1)) := by
  constructor
  · intro w1 hw
    have hw0 : m.Write g (writeRequestOf
        { d with id := (resolvePath d).1 ++ "/" ++ (resolvePath d).2 }
        (resolvePath d).1 (resolvePath d).2) w = (none, w1) := hw
    refine ⟨?_, ?_, ?_⟩
    · simp [resourceGitFileCreate, sprintfSlash, hw0]
    · simp [resourceGitFileCreate, sprintfSlash, hw0]
    · simp [resourceGitFileUpdate, hw]
  · intro err w1 hw
    have hw0 : m.Write g (writeRequestOf
        { d with id := (resolvePath d).1 ++ "/" ++ (resolvePath d).2 }
        (resolvePath d).1 (resolvePath d).2) w = (some err, w1) := hw
    refine ⟨?_, ?_⟩
    · simp [resourceGitFileCreate, sprintfSlash, hw0]
    · simp [resourceGitFileUpdate, hw]

/-- Witness of C10: the read after a successful write fails on its clone;
and a write that fails on its own clone. -/
theorem Create_discards_Update_returns_witness :
    (resourceGitFileCreate memSdk memGit client0 recNested worldFlaky).1 = [] ∧
    (resourceGitFileUpdate memSdk memGit client0 recNested worldFlaky).1
      = [{ Severity := Severity.Error
           Summary := "failed to read file: failed to clone repository: connection refused" }] ∧
    (resourceGitFileCreate memSdk memGit client0 recNested worldDown).1
      = [{ Severity := Severity.Error
           Summary := "failed to write file: failed to clone repository: connection refused" }] ∧
    (resourceGitFileUpdate memSdk memGit client0 recNested worldDown).1
      = [{ Severity := Severity.Error
           Summary := "failed to write file: failed to clone repository: connection refused" }] :=
  have h1 := (Create_discards_Update_returns memSdk memGit client0 recNested worldFlaky).1
    (client0.attempt memGit
      (writeRequestOf recNested (resolvePath recNested).1 (resolvePath recNested).2)
      worldFlaky).world
    (WriteFrom_done client0 memGit _ 0 worldFlaky _ rfl)
  have h2 := (Create_discards_Update_returns memSdk memGit client0 recNested worldDown).2
    (.wrap (.other "connection refused") "failed to clone repository")
    (client0.attempt memGit
      (writeRequestOf recNested (resolvePath recNested).1 (resolvePath recNested).2)
      worldDown).world
    (WriteFrom_failed client0 memGit _ 0 worldDown _ _ rfl)
  ⟨h1.1, by rw [h1.2.2]; decide, by rw [h2.1]; decide, by rw [h2.2]; decide⟩

/-! ## The locator of a file at the top of the tree -/

theorem slash_append (s : String) : "" ++ "/" ++ s = "/" ++ s := by
  apply String.ext
  simp

/-- Claim C5, at the input where the round trip breaks. With an empty `Path`
(the folder `resolvePath` gives for a `path` without `"/"`), `Write` and
`Read` both address the file as `"/" ++ FileName`, with a leading separator:
a `Write` that returns without error had the library create, write and stage
the file under that name, and a `Read` whose clone has nothing under that
name answers `Exists = false` without error. -/
theorem empty_path_locator {σ ρ φ : Type} (c : Client) (g : Git σ ρ φ)
    (request : WriteRequest) (w : World σ) (hpath : request.Path = "") :
    ((c.Write g request w).1 = none →
      ∃ r f r1 r2 r3, g.Create r ("/" ++ request.FileName) = .ok (f, r1) ∧
        g.FileWrite r1 f request.Content = .ok r2 ∧
        g.Add r2 ("/" ++ request.FileName) = .ok r3) ∧
    (∀ (w1 : World σ) (r : ρ) (s1 : σ),
      g.CloneContext (c.cloneOptions request.toReadRequest) w1.remote = (.ok r, s1) →
      g.Worktree r = none →
      g.Stat r ("/" ++ request.FileName) = some .ErrNotExist →
      (c.Read g request.toReadRequest w1).1 = .ok { Exists := false, Contents := none }) := by
  constructor
  · intro hok
    obtain ⟨wa, hatt⟩ := WriteFrom_ok_attempt c g request 0 w hok
    obtain ⟨r0, s1, r1, f, r2, r3, r4, r5, -, -, hcreate, hwrite, hadd, -, -⟩ :=
      attempt_success_calls c g request wa _ hatt
    rw [hpath, slash_append] at hcreate hadd
    exact ⟨r1, f, r2, r3, r4, hcreate, hwrite, hadd⟩
  · intro w1 r s1 hclone hwt hstat
    simp [Client.Read, doClone, hclone, hwt, sprintfSlash, hpath, slash_append, hstat]

/-- Witness of C5: the record `recTop` names `top.txt` by `path` alone; its
folder resolves to the empty string and its locator is `"/top.txt"`. -/
theorem empty_path_locator_witness :
    resolvePath recTop = ("", "top.txt") ∧
    requestTop.Path = "" ∧
    "/" ++ requestTop.FileName = "/top.txt" ∧
    (client0.Write memGit requestTop ⟨remote0, []⟩).1 = none ∧
    (∃ r f r1 r2 r3, memGit.Create r ("/" ++ requestTop.FileName) = .ok (f, r1) ∧
      memGit.FileWrite r1 f requestTop.Content = .ok r2 ∧
      memGit.Add r2 ("/" ++ requestTop.FileName) = .ok r3) ∧
    (client0.Read memGit requestTop.toReadRequest ⟨remote0, []⟩).1
      = .ok { Exists := false, Contents := none } :=
  have hok : (client0.Write memGit requestTop ⟨remote0, []⟩).1 = none :=
    congrArg Prod.fst (WriteFrom_done client0 memGit requestTop 0 ⟨remote0, []⟩
      (client0.attempt memGit requestTop ⟨remote0, []⟩).world rfl)
  have h := empty_path_locator client0 memGit requestTop ⟨remote0, []⟩ (by decide)
  ⟨by decide, by decide, by decide, hok, h.1 hok,
   h.2 ⟨remote0, []⟩ _ _ rfl rfl (by decide)⟩

end GitProvider
